import Mathlib

/-!
Verification of the dots.ocr document-parsing pipeline specification against
the repository's example sources (`example/advanced_parsing.py`,
`example/pdf_parsing_example.py`, `example/pdf_parsing_enhanced.py`) and,
for the pipeline core that the repository only calls (the `dots_ocr`
package), against models built from the specification text.
-/

namespace DotsOCR

/-- A layout element record: a Python dict with keys `category`, `bbox`,
`text`, and optionally `reading_order` (written by
`AdvancedParser.analyze_reading_order`) and `page_number` (written by
`PDFProcessor.merge_pdf_results`).  A missing `bbox` key is modelled by the
empty list (`item.get('bbox', [0,0,0,0])` then yields sort key `(0, 0)`,
exactly as the default `[0,0,0,0]` does). -/
structure LayoutItem where
  category : String
  bbox : List Int
  text : String
  reading_order : Option Nat := none
  page_number : Option Nat := none
deriving Repr, DecidableEq

/-- `sort_key` from `AdvancedParser.analyze_reading_order`
(example/advanced_parsing.py): `bbox = item.get('bbox', [0,0,0,0])`;
if `len(bbox) >= 4` unpack `x1, y1, x2, y2 = bbox[:4]` and return `(y1, x1)`,
otherwise return `(0, 0)`. -/
def sort_key (item : LayoutItem) : Int × Int :=
  if 4 ≤ item.bbox.length then (item.bbox.getD 1 0, item.bbox.getD 0 0)
  else (0, 0)

/-- Weak lexicographic order on sort keys `(y1, x1)`. -/
def keyLe (p q : Int × Int) : Prop :=
  p.1 < q.1 ∨ (p.1 = q.1 ∧ p.2 ≤ q.2)

/-- Comparison used to model Python's stable `sorted(layout_data, key=sort_key)`:
a stable sort by key `k` produces exactly the list sorted by the lexicographic
order on `(k(item), original_index)`, so we sort index-item pairs by
`(sort_key, index)`. -/
def keyIdxLe (a b : Nat × LayoutItem) : Prop :=
  (sort_key a.2).1 < (sort_key b.2).1 ∨
    ((sort_key a.2).1 = (sort_key b.2).1 ∧
      ((sort_key a.2).2 < (sort_key b.2).2 ∨
        ((sort_key a.2).2 = (sort_key b.2).2 ∧ a.1 ≤ b.1)))

instance : DecidableRel keyIdxLe := fun _ _ =>
  inferInstanceAs (Decidable (_ ∨ _))

instance : IsTotal (Nat × LayoutItem) keyIdxLe where
  total a b := by unfold keyIdxLe; omega

instance : IsTrans (Nat × LayoutItem) keyIdxLe where
  trans a b c := by unfold keyIdxLe; omega

/-- `sorted_data = sorted(layout_data, key=sort_key)` from
`AdvancedParser.analyze_reading_order`, with the original position of each
item kept alongside it (Python's sort is stable, i.e. it orders by
`(sort_key item, original index)`). -/
def sorted_data (layout_data : List LayoutItem) : List (Nat × LayoutItem) :=
  layout_data.enum.insertionSort keyIdxLe

/-- The write-back loop `for i, item in enumerate(sorted_data):
item['reading_order'] = i + 1`, starting at position `k`. -/
def assignOrders : Nat → List LayoutItem → List LayoutItem
  | _, [] => []
  | k, item :: rest => {item with reading_order := some (k + 1)} :: assignOrders (k + 1) rest

/-- `AdvancedParser.analyze_reading_order`
(example/advanced_parsing.py, lines 252-279): sort the layout items by
`sort_key` (stably) and assign `reading_order = i + 1` in sorted sequence. -/
def analyze_reading_order (layout_data : List LayoutItem) : List LayoutItem :=
  assignOrders 0 ((sorted_data layout_data).map Prod.snd)

/-- The rank (0-based) at which the item originally at position `i` lands in
the stable sort. -/
def rankOf (xs : List LayoutItem) (i : Nat) : Nat :=
  (sorted_data xs).findIdx (fun p => p.1 == i)

/-- The caller's layout list after `analyze_reading_order` has run: Python
mutates the item dicts in place, so the list the caller holds (still in its
original order) now carries each item's assigned `reading_order`. -/
def mutatedInput (xs : List LayoutItem) : List LayoutItem :=
  xs.enum.map (fun p => {p.2 with reading_order := some (rankOf xs p.1 + 1)})

/-- Sample items used for concrete witnesses. -/
def demoTitle : LayoutItem := {category := "Title", bbox := [10, 10, 200, 40], text := "Report"}

def demoText : LayoutItem := {category := "Text", bbox := [10, 50, 200, 100], text := "Body"}

def demoTable : LayoutItem := {category := "Table", bbox := [10, 120, 200, 180], text := "<table></table>"}

def demoText2 : LayoutItem := {category := "Text", bbox := [10, 200, 200, 240], text := "More"}

def demoBroken : LayoutItem := {category := "Text", bbox := [5], text := "broken"}

/-! ## Category filtering (`AdvancedParser.extract_structured_content`,
example/advanced_parsing.py, lines 143-190) -/


/-- The fixed closed category set, in the order the `structured_content`
dict is initialised. -/
def categories : List String :=
  ["Title", "Text", "Table", "Formula", "List-item", "Caption",
    "Section-header", "Picture", "Footnote", "Page-header", "Page-footer"]

/-- One iteration of the classification loop: `category = item.get('category',
'Unknown'); if category in structured_content:
structured_content[category].append(item)`.  A bucket whose key matches the
item's category gets the item appended; all other buckets (and items whose
category is not a key) leave the dict unchanged. -/
def addToBuckets (sc : List (String × List LayoutItem)) (item : LayoutItem) :
    List (String × List LayoutItem) :=
  sc.map (fun b => if b.1 = item.category then (b.1, b.2 ++ [item]) else b)

/-- `AdvancedParser.extract_structured_content`, restricted to its pure
classification core: fold the loop over the page's layout records, starting
from a dict mapping each fixed category to an empty list. -/
def extract_structured_content (layout_data : List LayoutItem) :
    List (String × List LayoutItem) :=
  layout_data.foldl addToBuckets (categories.map (fun c => (c, [])))

/-! ## Multi-page aggregation (`PDFProcessor.merge_pdf_results`,
example/pdf_parsing_example.py, lines 196-306) -/


/-- A per-page result dict as consumed by `merge_pdf_results`: `none` models
a missing `layout_info_path` / `md_content_path` key; `Except.error` a file
whose open/read/JSON-decode raises (the loop catches the exception, prints a
warning and moves on); `Except.ok` a successful load. -/
structure PageRawResult where
  page_no : Nat
  layout_info : Option (Except String (List LayoutItem)) := none
  md_content : Option (Except String String) := none
  input_width : Nat := 0
  input_height : Nat := 0
deriving Repr

/-- The elements one page contributes to `all_layout_data`: on a successful
load every element gets `item['page_number'] = page_no + 1`; a missing path
or a failed load contributes nothing. -/
def pageContribution (r : PageRawResult) : List LayoutItem :=
  match r.layout_info with
  | some (Except.ok page_layout) =>
      page_layout.map (fun item => {item with page_number := some (r.page_no + 1)})
  | _ => []

/-- One iteration of the layout-collection loop of `merge_pdf_results`. -/
def layoutStep (acc : List LayoutItem) (r : PageRawResult) : List LayoutItem :=
  match r.layout_info with
  | some (Except.ok page_layout) =>
      acc ++ page_layout.map (fun item => {item with page_number := some (r.page_no + 1)})
  | _ => acc

/-- `all_layout_data` accumulated over the per-page results. -/
def all_layout_data (results : List PageRawResult) : List LayoutItem :=
  results.foldl layoutStep []

/-- One iteration of the text-collection loop of `merge_pdf_results`
(the page marker string is kept abstract as `pageMark`). -/
def pageMark (page_no : Nat) : String :=
  "\n\n--- page " ++ toString (page_no + 1) ++ " ---\n\n"

def textStep (acc : List String) (r : PageRawResult) : List String :=
  match r.md_content with
  | some (Except.ok page_text) => acc ++ [pageMark r.page_no ++ page_text]
  | _ => acc

def all_text_content (results : List PageRawResult) : List String :=
  results.foldl textStep []

/-- One entry of `merged_info['pages_info']`. -/
structure PageInfo where
  page_number : Nat
  input_width : Nat
  input_height : Nat
  has_layout : Bool
  has_text : Bool
deriving Repr, DecidableEq

/-- `merged_info` as assembled by `merge_pdf_results`; the Python
`category_statistics` dict maps each category to its occurrence count in
`all_layout_data`. -/
structure MergedInfo where
  total_pages : Nat
  total_layout_elements : Nat
  total_text_length : Nat
  pages_info : List PageInfo
  category_statistics : String → Nat

/-- `PDFProcessor.merge_pdf_results`: `if not results: return {}` is modelled
as `none`; otherwise the merged statistics record is built. -/
def merge_pdf_results (results : List PageRawResult) : Option MergedInfo :=
  if results.isEmpty then none
  else some
    { total_pages := results.length
      total_layout_elements := (all_layout_data results).length
      total_text_length := ((all_text_content results).map String.length).sum
      pages_info := results.map (fun r =>
        { page_number := r.page_no + 1
          input_width := r.input_width
          input_height := r.input_height
          has_layout := r.layout_info.isSome
          has_text := r.md_content.isSome })
      category_statistics := fun c =>
        (all_layout_data results).countP (fun item => item.category == c) }

/-- The concrete two-page result set used for the C8 witness: page 0 loads
two elements, page 1's layout file fails to read. -/
def demoResults : List PageRawResult :=
  [{page_no := 0, layout_info := some (Except.ok [demoTitle, demoText]),
    input_width := 800, input_height := 600},
   {page_no := 1, layout_info := some (Except.error "timeout"),
    input_width := 800, input_height := 600}]

/-! ## Enhanced-API aggregation (`EnhancedPDFProcessor.parse_pdf_with_api`,
example/pdf_parsing_enhanced.py, lines 105-160) -/


/-- The decoded contents of a page's layout JSON file: a filtered page's
file stores the raw string response, a normal page's file stores a list of
element records (any other shape lands in the format-anomaly branch, which
`str` also exemplifies). -/
inductive JsonData
  | list (items : List LayoutItem)
  | str (raw : String)
deriving Repr, DecidableEq

/-- A raw per-page dict as read by the `parse_pdf_with_api` loop:
`layout_info = some d` models `'layout_info_path' in result` with the file
existing and decoding to `d`; `none` models a missing key or file. -/
structure ApiPageRaw where
  page_no : Nat
  layout_info : Option JsonData := none
  md_content : Option String := none
  filtered : Bool := false
deriving Repr, DecidableEq

/-- The `page_result` dict built for each page. -/
structure ApiPageResult where
  page_no : Nat
  cells_data : Option JsonData
  md_content : Option String
  filtered : Bool
deriving Repr, DecidableEq

/-- One page's `page_result`: `cells_data` is set to the decoded JSON
whenever the layout file is readable — for filtered and unfiltered pages
alike. -/
def toApiPageResult (r : ApiPageRaw) : ApiPageResult :=
  { page_no := r.page_no
    cells_data := r.layout_info
    md_content := r.md_content
    filtered := r.filtered }

/-- The `parsed_results` list assembled by the loop. -/
def parsed_results (results : List ApiPageRaw) : List ApiPageResult :=
  results.map toApiPageResult

/-- What one page adds to `all_cells_data`: nothing when the layout file is
unreadable, nothing when `filtered` is true (the structured analysis is
skipped), nothing when the JSON is not a list, and the decoded items
otherwise. -/
def cellsContribution (r : ApiPageRaw) : List LayoutItem :=
  match r.layout_info with
  | some json_data =>
      if r.filtered then []
      else
        match json_data with
        | JsonData.list items => items
        | JsonData.str _ => []
  | none => []

/-- One iteration of the `all_cells_data.extend(json_data)` logic. -/
def cellsStep (acc : List LayoutItem) (r : ApiPageRaw) : List LayoutItem :=
  match r.layout_info with
  | some json_data =>
      if r.filtered then acc
      else
        match json_data with
        | JsonData.list items => acc ++ items
        | JsonData.str _ => acc
  | none => acc

/-- The document-level `all_cells_data` aggregate. -/
def all_cells_data (results : List ApiPageRaw) : List LayoutItem :=
  results.foldl cellsStep []

/-- Concrete pages for the C10 witness: page 0 parses normally, page 1 is
filtered yet its layout JSON file is readable and holds one element. -/
def demoApiOk : ApiPageRaw :=
  {page_no := 0, layout_info := some (JsonData.list [demoTitle]), filtered := false}

def demoApiFiltered : ApiPageRaw :=
  {page_no := 1, layout_info := some (JsonData.list [demoText]), filtered := true}

/-! ## InferenceDispatcher (spec sections 4.2 and 5).
The `dots_ocr` package that implements the dispatcher is not part of the
repository sources (the examples only call it), so the scheduling model is
built from the specification text. -/


/-- Modelled from the spec: the terminal outcome of one page's dispatch —
either the backend's raw text, or a `Filtered` marker carrying the failure
diagnostic after the retry budget is exhausted. -/
inductive PageStatus
  | Succeeded (text : String)
  | Filtered (diagnostic : String)
deriving Repr, DecidableEq

def isSucceededOpt : Option PageStatus → Bool
  | some (PageStatus.Succeeded _) => true
  | _ => false

def isFilteredOpt : Option PageStatus → Bool
  | some (PageStatus.Filtered _) => true
  | _ => false

/-- Modelled from the spec: a page task performs attempts
`start, start + 1, …` until one succeeds or the remaining `budget` of
retries is exhausted; exhaustion yields `Filtered` with the failure kept as
diagnostic text, never an exception that could abort sibling pages. -/
def runWithRetries (attempt : Nat → Except String String) : Nat → Nat → PageStatus
  | start, 0 =>
    match attempt start with
    | Except.ok text => PageStatus.Succeeded text
    | Except.error e => PageStatus.Filtered e
  | start, budget + 1 =>
    match attempt start with
    | Except.ok text => PageStatus.Succeeded text
    | Except.error _ => runWithRetries attempt (start + 1) budget

/-- Modelled from the spec: workers complete page tasks in an arbitrary
completion `order`; each completion writes its page's outcome into the
pre-allocated slot indexed by that page — never appending to a list. -/
def dispatchLoop (outcome : Nat → PageStatus) (order : List Nat)
    (slots : List (Option PageStatus)) : List (Option PageStatus) :=
  order.foldl (fun s i => s.set i (some (outcome i))) slots

/-- Modelled from the spec: dispatch of `n` pages — `n` empty slots are
pre-allocated and every completed task fills its own slot. -/
def dispatch (n : Nat) (outcome : Nat → PageStatus) (order : List Nat) :
    List (Option PageStatus) :=
  dispatchLoop outcome order (List.replicate n none)

/-! ## Original/scaled coordinate mapping (spec sections 4.1, 4.4).
The `dots_ocr` implementation is not under the repository sources; modelled
from the specification, with "rounding tolerance" idealised as exact
rational arithmetic. -/


/-- Modelled from the spec: a caller-supplied original-image-space bbox is
first mapped into the scaled space using the page's recorded scale
factor. -/
def mapToScaled (scale : ℚ) (bbox : List ℚ) : List ℚ :=
  bbox.map (fun c => c * scale)

/-- Modelled from the spec: any result bbox is mapped back to
original-image space before being handed to the caller. -/
def mapToOriginal (scale : ℚ) (bbox : List ℚ) : List ℚ :=
  bbox.map (fun c => c / scale)

/-! ## LayoutPostProcessor coordinate normalization (spec section 4.4).
Modelled from the specification (the implementing `dots_ocr` package is not
under the repository sources). -/


/-- A bbox in the scaled page's pixel space. -/
structure BBox where
  x1 : Int
  y1 : Int
  x2 : Int
  y2 : Int
deriving Repr, DecidableEq

/-- Modelled from the spec: clip a bbox to the `[0, width] × [0, height]`
rectangle of the page's scaled image. -/
def clipBBox (width height : Int) (b : BBox) : BBox :=
  { x1 := max 0 (min width b.x1)
    y1 := max 0 (min height b.y1)
    x2 := max 0 (min width b.x2)
    y2 := max 0 (min height b.y2) }

/-- Modelled from the spec: coordinate normalization — clip every bbox to
the scaled image and drop zero-area results. -/
def normalizeBBoxes (width height : Int) (bs : List BBox) : List BBox :=
  (bs.map (clipBBox width height)).filter
    (fun b => decide (b.x1 < b.x2 ∧ b.y1 < b.y2))

/-! ## ResolutionPlanner (spec sections 4.1 and 8). Modelled from the
specification (the implementing `dots_ocr` package is not under the
repository sources); "within rounding tolerance" is idealised as exact real
arithmetic, so aspect-ratio preservation is stated in cross-multiplied
form. -/


/-- Modelled from the spec: the pixel budget fixes the target area — clamped
into `[min_pixels, max_pixels]` when both bounds are supplied, clamped to
the single bound when only one is supplied, and the original area when
neither is. -/
def targetArea (area : Nat) : Option Nat → Option Nat → Nat
  | none, none => area
  | some mn, none => max area mn
  | none, some mx => min area mx
  | some mn, some mx => if mx < area then mx else if area < mn then mn else area

/-- Modelled from the spec: ResolutionPlanner fails with `InvalidDimensions`
on non-positive dimensions and otherwise scales both sides by the square
root of the (target area / original area) ratio, preserving aspect ratio
while moving the area into the pixel budget. -/
noncomputable def plan_resolution (width height : Int)
    (min_pixels max_pixels : Option Nat) : Except String (ℝ × ℝ) :=
  if width ≤ 0 ∨ height ≤ 0 then Except.error "InvalidDimensions"
  else
    let area := (width * height).toNat
    let s := Real.sqrt ((targetArea area min_pixels max_pixels : ℝ) / (area : ℝ))
    Except.ok (s * (width : ℝ), s * (height : ℝ))

/-! ## ResultParser (spec section 4.3). Modelled from the specification
(the implementing `dots_ocr` package is not under the repository sources);
the concrete JSON decoder and the wrapper-stripping repair pass are
abstract parameters, since only their success/failure shape is specified. -/


/-- Modelled from the spec: one decoded record of the backend's response —
category and bbox may each be missing. -/
structure RawRecord where
  category : Option String
  bbox : Option (List Int)
  text : String
deriving Repr, DecidableEq

/-- Modelled from the spec: a record is retained iff it carries a category
drawn from the fixed closed set and a 4-length numeric bbox. -/
def validRecord (r : RawRecord) : Bool :=
  match r.category, r.bbox with
  | some c, some b => decide (c ∈ categories) && decide (b.length = 4)
  | _, _ => false

/-- Modelled from the spec: a page's parse outcome — the validated element
records, or a `Filtered` marker retaining the raw backend text verbatim. -/
inductive ParsePageResult
  | Succeeded (elements : List RawRecord)
  | Filtered (raw : String)
deriving Repr, DecidableEq

/-- Modelled from the spec: ResultParser — (1) strict decode of the full
text; (2) on failure, a repair pass strips wrapping artifacts (`strip`) and
retries the strict decode; (3) on repeated failure the page is `Filtered`
with the original raw text kept verbatim. Decoded records missing a valid
category or bbox are dropped individually. -/
def parse_response (decode : String → Option (List RawRecord))
    (strip : String → String) (raw : String) : ParsePageResult :=
  match decode raw with
  | some records => ParsePageResult.Succeeded (records.filter validRecord)
  | none =>
    match decode (strip raw) with
    | some records => ParsePageResult.Succeeded (records.filter validRecord)
    | none => ParsePageResult.Filtered raw

/-- Sample decoded records for the C4 witness: one fully valid record and
one lacking a category. -/
def goodRecord : RawRecord :=
  {category := some "Text", bbox := some [10, 50, 200, 100], text := "Body"}

def badRecord : RawRecord :=
  {category := none, bbox := some [1, 2, 3, 4], text := "noise"}

/-- A concrete decoder for the C4 witness: only the text "[good]" decodes
(to one valid and one malformed record); everything else fails both the
strict and the repaired pass (strip is the identity). -/
def demoDecode : String → Option (List RawRecord) := fun s =>
  if s = "[good]" then some [badRecord, goodRecord] else none

theorem length_assignOrders (k : Nat) (l : List LayoutItem) :
    (assignOrders k l).length = l.length := by
  induction l generalizing k with
  | nil => rfl
  | cons x xs ih => simp [assignOrders, ih]

theorem getElem_assignOrders (k : Nat) (l : List LayoutItem) (i : Nat)
    (h : i < l.length) (h' : i < (assignOrders k l).length) :
    (assignOrders k l)[i] = {l[i] with reading_order := some (k + i + 1)} := by
  induction l generalizing k i with
  | nil => simp at h
  | cons x xs ih =>
    cases i with
    | zero => simp [assignOrders]
    | succ n =>
      have hn : n < xs.length := by simpa using h
      have hn' : n < (assignOrders (k + 1) xs).length := by
        rw [length_assignOrders]; exact hn
      have harith : k + 1 + n + 1 = k + (n + 1) + 1 := by omega
      simp only [assignOrders, List.getElem_cons_succ]
      rw [ih (k + 1) n hn hn', harith]

theorem assignOrders_eq_self (k : Nat) (l : List LayoutItem)
    (h : ∀ i (hi : i < l.length), l[i].reading_order = some (k + i + 1)) :
    assignOrders k l = l := by
  induction l generalizing k with
  | nil => rfl
  | cons x xs ih =>
    have h0 : x.reading_order = some (k + 1) := by
      have := h 0 (by simp)
      simpa using this
    have hrest : assignOrders (k + 1) xs = xs := by
      refine ih (k + 1) ?_
      intro i hi
      have := h (i + 1) (by simpa using Nat.succ_lt_succ hi)
      simpa [Nat.add_assoc, Nat.add_comm, Nat.add_left_comm] using this
    simp only [assignOrders, hrest]
    congr 1
    cases x
    simp_all

theorem sorted_data_perm (xs : List LayoutItem) :
    List.Perm (sorted_data xs) xs.enum :=
  List.perm_insertionSort keyIdxLe xs.enum

theorem sorted_data_sorted (xs : List LayoutItem) :
    (sorted_data xs).Sorted keyIdxLe :=
  List.sorted_insertionSort keyIdxLe xs.enum

theorem length_sorted_data (xs : List LayoutItem) :
    (sorted_data xs).length = xs.length := by
  rw [List.Perm.length_eq (sorted_data_perm xs), List.enum_length]

theorem length_analyze_reading_order (xs : List LayoutItem) :
    (analyze_reading_order xs).length = xs.length := by
  simp only [analyze_reading_order]
  rw [length_assignOrders, List.length_map, length_sorted_data]

theorem getElem_analyze_reading_order (xs : List LayoutItem) (i : Nat)
    (h : i < (analyze_reading_order xs).length)
    (h' : i < (sorted_data xs).length) :
    (analyze_reading_order xs)[i] =
      {(sorted_data xs)[i].2 with reading_order := some (i + 1)} := by
  have hm : i < ((sorted_data xs).map Prod.snd).length := by
    rw [List.length_map]; exact h'
  simp only [analyze_reading_order] at h ⊢
  rw [getElem_assignOrders 0 _ i hm h, List.getElem_map]
  simp

theorem reading_order_analyze (xs : List LayoutItem) (i : Nat)
    (h : i < (analyze_reading_order xs).length) :
    (analyze_reading_order xs)[i].reading_order = some (i + 1) := by
  have h' : i < (sorted_data xs).length := by
    rw [length_sorted_data, ← length_analyze_reading_order xs]; exact h
  rw [getElem_analyze_reading_order xs i h h']

theorem sort_key_set_reading_order (item : LayoutItem) (v : Option Nat) :
    sort_key {item with reading_order := v} = sort_key item := by
  simp [sort_key]

theorem keyLe_of_keyIdxLe {a b : Nat × LayoutItem} (h : keyIdxLe a b) :
    keyLe (sort_key a.2) (sort_key b.2) := by
  unfold keyIdxLe at h
  unfold keyLe
  omega

theorem keyIdxLe_of_keyLe {i j : Nat} {x y : LayoutItem} (hij : i ≤ j)
    (h : keyLe (sort_key x) (sort_key y)) : keyIdxLe (i, x) (j, y) := by
  unfold keyLe at h
  unfold keyIdxLe
  simp only
  omega

/-- The output of `analyze_reading_order`, paired with its fresh positions,
is already sorted for `keyIdxLe`: re-sorting it is the identity. -/
theorem analyze_enum_sorted (xs : List LayoutItem) :
    ((analyze_reading_order xs).enum).Sorted keyIdxLe := by
  rw [List.Sorted, List.pairwise_iff_getElem]
  intro i j hi hj hij
  have hi' : i < (analyze_reading_order xs).length := by
    simpa [List.enum_length] using hi
  have hj' : j < (analyze_reading_order xs).length := by
    simpa [List.enum_length] using hj
  have hsi : i < (sorted_data xs).length := by
    rw [length_sorted_data, ← length_analyze_reading_order xs]; exact hi'
  have hsj : j < (sorted_data xs).length := by
    rw [length_sorted_data, ← length_analyze_reading_order xs]; exact hj'
  rw [List.getElem_enum, List.getElem_enum]
  have hkey : keyLe (sort_key (sorted_data xs)[i].2)
      (sort_key (sorted_data xs)[j].2) := by
    have hp := (List.pairwise_iff_getElem.mp (sorted_data_sorted xs)) i j hsi hsj hij
    exact keyLe_of_keyIdxLe hp
  have e1 : sort_key (analyze_reading_order xs)[i] =
      sort_key (sorted_data xs)[i].2 := by
    rw [getElem_analyze_reading_order xs i hi' hsi, sort_key_set_reading_order]
  have e2 : sort_key (analyze_reading_order xs)[j] =
      sort_key (sorted_data xs)[j].2 := by
    rw [getElem_analyze_reading_order xs j hj' hsj, sort_key_set_reading_order]
  exact keyIdxLe_of_keyLe (Nat.le_of_lt hij) (by rw [e1, e2]; exact hkey)

/-- Re-sorting the already ordered output is the identity permutation. -/
theorem sorted_data_analyze (xs : List LayoutItem) :
    sorted_data (analyze_reading_order xs) = (analyze_reading_order xs).enum :=
  List.Sorted.insertionSort_eq (analyze_enum_sorted xs)

theorem analyze_reading_order_idempotent (xs : List LayoutItem) :
    analyze_reading_order (analyze_reading_order xs) = analyze_reading_order xs := by
  conv_lhs => rw [show analyze_reading_order (analyze_reading_order xs) =
    assignOrders 0 ((sorted_data (analyze_reading_order xs)).map Prod.snd) from rfl]
  rw [sorted_data_analyze, List.enum_map_snd]
  refine assignOrders_eq_self 0 _ ?_
  intro i hi
  have := reading_order_analyze xs i hi
  simpa using this

theorem findIdx_eq_of_getElem {α : Type} (p : α → Bool) (l : List α) (i : Nat)
    (hi : i < l.length) (hp : p l[i] = true)
    (hprev : ∀ j (hj : j < l.length), j < i → p l[j] = false) :
    l.findIdx p = i := by
  induction l generalizing i with
  | nil => simp at hi
  | cons x xs ih =>
    cases i with
    | zero =>
      simp only [List.getElem_cons_zero] at hp
      simp [List.findIdx_cons, hp]
    | succ n =>
      have hx : p x = false := by
        have := hprev 0 (by simp) (Nat.succ_pos n)
        simpa using this
      have hn : n < xs.length := by simpa using hi
      have hpn : p xs[n] = true := by simpa using hp
      rw [List.findIdx_cons, hx]
      simp only [cond_false]
      congr 1
      refine ih n hn hpn ?_
      intro j hj hjn
      have := hprev (j + 1) (by simpa using Nat.succ_lt_succ hj) (Nat.succ_lt_succ hjn)
      simpa using this

theorem sorted_data_fst_nodup (xs : List LayoutItem) :
    ((sorted_data xs).map Prod.fst).Nodup :=
  (List.Perm.nodup_iff (List.Perm.map Prod.fst (sorted_data_perm xs))).mpr
    (List.nodup_enum_map_fst xs)

theorem rankOf_sorted_data (xs : List LayoutItem) (i : Nat)
    (h : i < (sorted_data xs).length) :
    rankOf xs (sorted_data xs)[i].1 = i := by
  refine findIdx_eq_of_getElem _ _ i h (by simp) ?_
  intro j hj hji
  have hne : (sorted_data xs)[j].1 ≠ (sorted_data xs)[i].1 := by
    intro hEq
    have hnd := sorted_data_fst_nodup xs
    have hmj : j < ((sorted_data xs).map Prod.fst).length := by
      rw [List.length_map]; exact hj
    have hmi : i < ((sorted_data xs).map Prod.fst).length := by
      rw [List.length_map]; exact h
    have : j = i := by
      have hget : ((sorted_data xs).map Prod.fst)[j] =
          ((sorted_data xs).map Prod.fst)[i] := by
        rw [List.getElem_map, List.getElem_map, hEq]
      exact (List.Nodup.getElem_inj_iff hnd).mp hget
    omega
  simpa using hne

theorem analyze_eq_map_rank (xs : List LayoutItem) :
    analyze_reading_order xs =
      (sorted_data xs).map
        (fun p => {p.2 with reading_order := some (rankOf xs p.1 + 1)}) := by
  apply List.ext_getElem
  · rw [length_analyze_reading_order, List.length_map, length_sorted_data]
  intro i h1 h2
  have hs : i < (sorted_data xs).length := by
    rw [List.length_map] at h2; exact h2
  rw [getElem_analyze_reading_order xs i h1 hs, List.getElem_map,
    rankOf_sorted_data xs i hs]

theorem analyze_perm_mutatedInput (xs : List LayoutItem) :
    List.Perm (analyze_reading_order xs) (mutatedInput xs) := by
  rw [analyze_eq_map_rank]
  exact List.Perm.map _ (sorted_data_perm xs)

/-- C2: `analyze_reading_order` stably sorts by `(y1, x1)` ascending with ties
broken by original detection index (the output is the permutation of the
indexed input sorted by `keyIdxLe`), assigns 1-based `reading_order` values
in sorted sequence, is idempotent, and for two output elements with
well-formed bboxes, a strictly smaller `y1` forces a strictly smaller
`reading_order`. -/
theorem claim_C2 (xs : List LayoutItem) :
    ((sorted_data xs).Sorted keyIdxLe ∧ List.Perm (sorted_data xs) xs.enum ∧
      analyze_reading_order xs = assignOrders 0 ((sorted_data xs).map Prod.snd)) ∧
    (∀ i (hi : i < (analyze_reading_order xs).length),
      (analyze_reading_order xs)[i].reading_order = some (i + 1)) ∧
    analyze_reading_order (analyze_reading_order xs) = analyze_reading_order xs ∧
    (∀ i j (hi : i < (analyze_reading_order xs).length)
      (hj : j < (analyze_reading_order xs).length),
      4 ≤ (analyze_reading_order xs)[i].bbox.length →
      4 ≤ (analyze_reading_order xs)[j].bbox.length →
      (analyze_reading_order xs)[i].bbox.getD 1 0 <
        (analyze_reading_order xs)[j].bbox.getD 1 0 →
      (analyze_reading_order xs)[i].reading_order.getD 0 <
        (analyze_reading_order xs)[j].reading_order.getD 0) := by
  refine ⟨⟨sorted_data_sorted xs, sorted_data_perm xs, rfl⟩,
    reading_order_analyze xs, analyze_reading_order_idempotent xs, ?_⟩
  intro i j hi hj h4i h4j hlt
  have hsi : i < (sorted_data xs).length := by
    rw [length_sorted_data, ← length_analyze_reading_order xs]; exact hi
  have hsj : j < (sorted_data xs).length := by
    rw [length_sorted_data, ← length_analyze_reading_order xs]; exact hj
  have hij : i < j := by
    by_contra hc
    push_neg at hc
    rcases Nat.lt_or_ge j i with hji | hge
    · have hp := (List.pairwise_iff_getElem.mp (sorted_data_sorted xs)) j i hsj hsi hji
      have hk := keyLe_of_keyIdxLe hp
      have ebi : (analyze_reading_order xs)[i].bbox = (sorted_data xs)[i].2.bbox := by
        rw [getElem_analyze_reading_order xs i hi hsi]
      have ebj : (analyze_reading_order xs)[j].bbox = (sorted_data xs)[j].2.bbox := by
        rw [getElem_analyze_reading_order xs j hj hsj]
      rw [ebi] at h4i hlt
      rw [ebj] at h4j hlt
      unfold keyLe at hk
      rw [sort_key, if_pos h4j, sort_key, if_pos h4i] at hk
      simp only at hk
      omega
    · have : i = j := Nat.le_antisymm hge hc
      subst this
      omega
  rw [reading_order_analyze xs i hi, reading_order_analyze xs j hj]
  simpa using Nat.succ_lt_succ hij

/-- C2 witness: on the two-element page `[demoText, demoTitle]` (Text at
`y1 = 50` listed before Title at `y1 = 10`) the Title ends up with a
strictly smaller reading order, and slot 0 carries `reading_order = 1`. -/
theorem claim_C2_witness :
    ((analyze_reading_order [demoText, demoTitle]).get ⟨0, by decide⟩).reading_order
        = some (0 + 1) ∧
      ((analyze_reading_order [demoText, demoTitle]).get ⟨0, by decide⟩).reading_order.getD 0 <
        ((analyze_reading_order [demoText, demoTitle]).get ⟨1, by decide⟩).reading_order.getD 0 :=
  ⟨(claim_C2 [demoText, demoTitle]).2.1 0 (by decide),
    (claim_C2 [demoText, demoTitle]).2.2.2 0 1 (by decide) (by decide)
      (by decide) (by decide) (by decide)⟩

/-- C9: `analyze_reading_order` is total over arbitrary element lists — the
output has the input's length and every output element carries a
`reading_order`; an element whose bbox has fewer than 4 entries gets sort
key `(0, 0)` and is placed before every well-formed element with positive
top/left coordinates; and the function mutates the caller's dicts in place:
the input list, in original order, now carries the assigned orders
(`mutatedInput`), and the returned list is a permutation of it. -/
theorem claim_C9 (xs : List LayoutItem) :
    (analyze_reading_order xs).length = xs.length ∧
    (∀ i (hi : i < (analyze_reading_order xs).length),
      (analyze_reading_order xs)[i].reading_order = some (i + 1)) ∧
    (∀ i j (hi : i < (analyze_reading_order xs).length)
      (hj : j < (analyze_reading_order xs).length),
      (analyze_reading_order xs)[i].bbox.length < 4 →
      4 ≤ (analyze_reading_order xs)[j].bbox.length →
      0 < (analyze_reading_order xs)[j].bbox.getD 0 0 →
      0 < (analyze_reading_order xs)[j].bbox.getD 1 0 →
      i < j) ∧
    List.Perm (analyze_reading_order xs) (mutatedInput xs) := by
  refine ⟨length_analyze_reading_order xs, reading_order_analyze xs, ?_,
    analyze_perm_mutatedInput xs⟩
  intro i j hi hj h4i h4j hx1 hy1
  have hsi : i < (sorted_data xs).length := by
    rw [length_sorted_data, ← length_analyze_reading_order xs]; exact hi
  have hsj : j < (sorted_data xs).length := by
    rw [length_sorted_data, ← length_analyze_reading_order xs]; exact hj
  have ebi : (analyze_reading_order xs)[i].bbox = (sorted_data xs)[i].2.bbox := by
    rw [getElem_analyze_reading_order xs i hi hsi]
  have ebj : (analyze_reading_order xs)[j].bbox = (sorted_data xs)[j].2.bbox := by
    rw [getElem_analyze_reading_order xs j hj hsj]
  rw [ebi] at h4i
  rw [ebj] at h4j hx1 hy1
  by_contra hc
  push_neg at hc
  rcases Nat.lt_or_ge j i with hji | hge
  · have hp := (List.pairwise_iff_getElem.mp (sorted_data_sorted xs)) j i hsj hsi hji
    have hk := keyLe_of_keyIdxLe hp
    unfold keyLe at hk
    rw [sort_key, if_pos h4j, sort_key, if_neg (by omega)] at hk
    simp only at hk
    omega
  · have : i = j := Nat.le_antisymm hge hc
    subst this
    omega

/-- C9 witness: on `[demoText, demoBroken]` the element with the 1-entry
bbox is not dropped, lands before the positive-coordinate Text element,
receives `reading_order = 1`, and the caller's mutated list is a
permutation of the output. -/
theorem claim_C9_witness :
    (analyze_reading_order [demoText, demoBroken]).length = [demoText, demoBroken].length ∧
      ((analyze_reading_order [demoText, demoBroken]).get ⟨0, by decide⟩).reading_order
        = some (0 + 1) ∧
      (0 : Nat) < 1 :=
  ⟨(claim_C9 [demoText, demoBroken]).1,
    (claim_C9 [demoText, demoBroken]).2.1 0 (by decide),
    (claim_C9 [demoText, demoBroken]).2.2.1 0 1 (by decide) (by decide)
      (by decide) (by decide) (by decide) (by decide)⟩

theorem foldl_addToBuckets (layout_data : List LayoutItem)
    (sc : List (String × List LayoutItem)) :
    layout_data.foldl addToBuckets sc =
      sc.map (fun b => (b.1, b.2 ++ layout_data.filter (fun e => e.category = b.1))) := by
  induction layout_data generalizing sc with
  | nil =>
    simp only [List.foldl_nil, List.filter_nil, List.append_nil]
    exact (List.map_id sc).symm.trans (List.map_congr_left (by simp))
  | cons x xs ih =>
    rw [List.foldl_cons, ih, addToBuckets, List.map_map]
    refine List.map_congr_left ?_
    intro b _
    simp only [Function.comp_apply]
    by_cases hb : b.1 = x.category
    · rw [if_pos hb, List.filter_cons, if_pos (by simpa using hb.symm)]
      simp
    · rw [if_neg hb, List.filter_cons, if_neg (by simpa using fun h => hb h.symm)]

theorem lookup_map_self {β : Type} (f : String → β) (cs : List String)
    (c : String) (hc : c ∈ cs) :
    (cs.map (fun d => (d, f d))).lookup c = some (f c) := by
  induction cs with
  | nil => simp at hc
  | cons d ds ih =>
    rw [List.map_cons, List.lookup]
    by_cases hdc : c = d
    · subst hdc
      simp
    · have hbeq : (c == d) = false := beq_false_of_ne hdc
      rw [hbeq]
      have hmem : c ∈ ds := by
        rcases List.mem_cons.mp hc with h | h
        · exact absurd h hdc
        · exact h
      exact ih hmem

theorem getBucket_extract_structured_content (layout_data : List LayoutItem)
    (c : String) (hc : c ∈ categories) :
    (extract_structured_content layout_data).lookup c =
      some (layout_data.filter (fun e => e.category = c)) := by
  simp only [extract_structured_content]
  rw [foldl_addToBuckets, List.map_map]
  exact lookup_map_self
    (fun d => ([] : List LayoutItem) ++ layout_data.filter (fun e => e.category = d))
    categories c hc

/-- C7: for every page element list and every category in the fixed set, the
bucket built by `extract_structured_content` is exactly the subsequence of
elements of that category, in their original relative order (it is a
`filter`, hence a sublist of the input). -/
theorem claim_C7 (layout_data : List LayoutItem) (c : String)
    (hc : c ∈ categories) :
    (extract_structured_content layout_data).lookup c =
        some (layout_data.filter (fun e => e.category = c)) ∧
      List.Sublist (layout_data.filter (fun e => e.category = c)) layout_data := by
  exact ⟨getBucket_extract_structured_content layout_data c hc,
    List.filter_sublist layout_data⟩

/-- C7 witness: a page with categories `[Title, Text, Table, Text]` filtered
for `Text` yields exactly the two Text elements in original order. -/
theorem claim_C7_witness :
    (extract_structured_content [demoTitle, demoText, demoTable, demoText2]).lookup "Text"
      = some [demoText, demoText2] :=
  ((claim_C7 [demoTitle, demoText, demoTable, demoText2] "Text" (by decide)).1).trans
    (by decide)

theorem layoutStep_eq (acc : List LayoutItem) (r : PageRawResult) :
    layoutStep acc r = acc ++ pageContribution r := by
  unfold layoutStep pageContribution
  rcases r.layout_info with _ | (e | l) <;> simp

theorem foldl_layoutStep (rs : List PageRawResult) (acc : List LayoutItem) :
    rs.foldl layoutStep acc = acc ++ rs.flatMap pageContribution := by
  induction rs generalizing acc with
  | nil => simp
  | cons r rs ih =>
    rw [List.foldl_cons, layoutStep_eq, ih, List.flatMap_cons, List.append_assoc]

theorem all_layout_data_eq (results : List PageRawResult) :
    all_layout_data results = results.flatMap pageContribution := by
  rw [all_layout_data, foldl_layoutStep, List.nil_append]

/-- C8: `merge_pdf_results`, given all page results in page order, always
completes (any nonempty result list, filtered/unreadable pages included,
yields a merged record), reports one `pages_info` entry per dispatched page
with 1-based `page_number`, and tags every retained element with
`page_number = page index + 1`. -/
theorem claim_C8 (results : List PageRawResult) (hne : results ≠ [])
    (horder : ∀ i (hi : i < results.length), results[i].page_no = i) :
    (merge_pdf_results results).isSome = true ∧
    (∀ m, merge_pdf_results results = some m →
      m.total_pages = results.length ∧
      m.pages_info.length = results.length ∧
      (∀ i (hi : i < m.pages_info.length), m.pages_info[i].page_number = i + 1) ∧
      m.total_layout_elements = (all_layout_data results).length) ∧
    all_layout_data results = results.flatMap pageContribution ∧
    (∀ i (hi : i < results.length), ∀ l,
      results[i].layout_info = some (Except.ok l) →
      ∀ item ∈ l,
        {item with page_number := some (i + 1)} ∈ all_layout_data results) := by
  have hempty : results.isEmpty = false := by
    rcases results with _ | ⟨r, rs⟩
    · exact absurd rfl hne
    · rfl
  refine ⟨?_, ?_, all_layout_data_eq results, ?_⟩
  · rw [merge_pdf_results, hempty]
    rfl
  · intro m hm
    rw [merge_pdf_results, hempty] at hm
    simp only [Bool.false_eq_true, if_false, Option.some.injEq] at hm
    subst hm
    refine ⟨rfl, by simp, ?_, rfl⟩
    intro i hi
    have hi' : i < results.length := by simpa using hi
    rw [List.getElem_map]
    simp only
    rw [horder i hi']
  · intro i hi l hl item hitem
    rw [all_layout_data_eq]
    rw [List.mem_flatMap]
    refine ⟨results[i], List.getElem_mem hi, ?_⟩
    rw [pageContribution, hl, horder i hi]
    exact List.mem_map_of_mem _ hitem

/-- C8 witness: merging the two-page partial result set succeeds, and the
Title element of page 0 is retained tagged with `page_number = 1`. -/
theorem claim_C8_witness :
    (merge_pdf_results demoResults).isSome = true ∧
      {demoTitle with page_number := some 1} ∈ all_layout_data demoResults :=
  ⟨(claim_C8 demoResults (by simp [demoResults]) (by decide)).1,
    (claim_C8 demoResults (by simp [demoResults]) (by decide)).2.2.2 0 (by decide)
      [demoTitle, demoText] rfl demoTitle (by decide)⟩

theorem cellsStep_eq (acc : List LayoutItem) (r : ApiPageRaw) :
    cellsStep acc r = acc ++ cellsContribution r := by
  unfold cellsStep cellsContribution
  rcases r.layout_info with _ | (items | s) <;> rcases hf : r.filtered <;> simp [hf]

theorem foldl_cellsStep (rs : List ApiPageRaw) (acc : List LayoutItem) :
    rs.foldl cellsStep acc = acc ++ rs.flatMap cellsContribution := by
  induction rs generalizing acc with
  | nil => simp
  | cons r rs ih =>
    rw [List.foldl_cons, cellsStep_eq, ih, List.flatMap_cons, List.append_assoc]

theorem all_cells_data_eq (results : List ApiPageRaw) :
    all_cells_data results = results.flatMap cellsContribution := by
  rw [all_cells_data, foldl_cellsStep, List.nil_append]

/-- C10: in `parse_pdf_with_api` the combined `all_cells_data` is the
concatenation of the per-page contributions; a page with `filtered = true`
contributes nothing even when its layout JSON is readable, while its
`page_result.cells_data` still holds the decoded JSON, so the two can
disagree; only non-filtered pages whose JSON decodes to a list are
extended. -/
theorem claim_C10 (results : List ApiPageRaw) :
    all_cells_data results = results.flatMap cellsContribution ∧
    (parsed_results results).length = results.length ∧
    (∀ i (hi : i < results.length) (hi' : i < (parsed_results results).length),
      (parsed_results results)[i].cells_data = results[i].layout_info ∧
      (parsed_results results)[i].filtered = results[i].filtered) ∧
    (∀ r : ApiPageRaw, r.filtered = true → cellsContribution r = []) ∧
    (∀ r : ApiPageRaw, r.filtered = false →
      (∀ items, r.layout_info = some (JsonData.list items) →
        cellsContribution r = items) ∧
      (∀ s, r.layout_info = some (JsonData.str s) → cellsContribution r = [])) := by
  refine ⟨all_cells_data_eq results, by simp [parsed_results], ?_, ?_, ?_⟩
  · intro i hi hi'
    simp only [parsed_results, List.getElem_map]
    exact ⟨rfl, rfl⟩
  · intro r hf
    unfold cellsContribution
    rcases r.layout_info with _ | d <;> simp [hf]
  · intro r hf
    constructor
    · intro items hl
      unfold cellsContribution
      rw [hl]
      simp [hf]
    · intro s hl
      unfold cellsContribution
      rw [hl]
      simp [hf]

/-- C10 witness: the filtered page's `cells_data` holds its (readable,
nonempty) decoded JSON, yet it contributes zero elements — the combined
list is exactly the non-filtered page's elements. -/
theorem claim_C10_witness :
    cellsContribution demoApiFiltered = [] ∧
      ((parsed_results [demoApiOk, demoApiFiltered]).get ⟨1, by decide⟩).cells_data
        = some (JsonData.list [demoText]) ∧
      all_cells_data [demoApiOk, demoApiFiltered] = [demoTitle] :=
  ⟨(claim_C10 [demoApiOk, demoApiFiltered]).2.2.2.1 demoApiFiltered rfl,
    ((claim_C10 [demoApiOk, demoApiFiltered]).2.2.1 1 (by decide) (by decide)).1.trans
      (by decide),
    ((claim_C10 [demoApiOk, demoApiFiltered]).1).trans (by decide)⟩

theorem dispatchLoop_nil (outcome : Nat → PageStatus)
    (slots : List (Option PageStatus)) : dispatchLoop outcome [] slots = slots :=
  rfl

theorem dispatchLoop_cons (outcome : Nat → PageStatus) (j : Nat) (rest : List Nat)
    (slots : List (Option PageStatus)) :
    dispatchLoop outcome (j :: rest) slots =
      dispatchLoop outcome rest (slots.set j (some (outcome j))) :=
  rfl

theorem length_dispatchLoop (outcome : Nat → PageStatus) (order : List Nat)
    (slots : List (Option PageStatus)) :
    (dispatchLoop outcome order slots).length = slots.length := by
  induction order generalizing slots with
  | nil => rfl
  | cons j rest ih =>
    rw [dispatchLoop_cons, ih, List.length_set]

theorem getElem_dispatchLoop (outcome : Nat → PageStatus) (order : List Nat)
    (slots : List (Option PageStatus)) (i : Nat) (hi : i < slots.length)
    (hi' : i < (dispatchLoop outcome order slots).length) :
    (dispatchLoop outcome order slots)[i] =
      if i ∈ order then some (outcome i) else slots[i] := by
  induction order generalizing slots with
  | nil => simp [dispatchLoop]
  | cons j rest ih =>
    have hlen : i < (slots.set j (some (outcome j))).length := by
      rw [List.length_set]; exact hi
    have hlen' : i < (dispatchLoop outcome rest (slots.set j (some (outcome j)))).length := by
      rw [length_dispatchLoop, List.length_set]; exact hi
    rw [List.getElem_of_eq (dispatchLoop_cons outcome j rest slots) hi']
    rw [ih (slots.set j (some (outcome j))) hlen hlen']
    by_cases hmem : i ∈ rest
    · rw [if_pos hmem, if_pos (List.mem_cons_of_mem j hmem)]
    · rw [if_neg hmem, List.getElem_set]
      by_cases hij : j = i
      · subst hij
        rw [if_pos rfl, if_pos (List.mem_cons_self j rest)]
      · rw [if_neg hij, if_neg ?_]
        intro hc
        rcases List.mem_cons.mp hc with h | h
        · exact hij h.symm
        · exact hmem h

/-- When the completion order covers every page exactly as a permutation of
`range n`, the slots come out as the outcomes in page order. -/
theorem dispatch_eq_map (n : Nat) (outcome : Nat → PageStatus) (order : List Nat)
    (horder : List.Perm order (List.range n)) :
    dispatch n outcome order = (List.range n).map (fun i => some (outcome i)) := by
  apply List.ext_getElem
  · simp only [dispatch]
    rw [length_dispatchLoop, List.length_replicate, List.length_map,
      List.length_range]
  intro i h1 h2
  have hn : i < n := by
    simp only [dispatch] at h1
    rw [length_dispatchLoop, List.length_replicate] at h1; exact h1
  have hrep : i < (List.replicate n (none : Option PageStatus)).length := by
    rw [List.length_replicate]; exact hn
  have h1' : i < (dispatchLoop outcome order (List.replicate n none)).length := h1
  simp only [dispatch]
  rw [getElem_dispatchLoop outcome order _ i hrep h1', List.getElem_map,
    List.getElem_range]
  rw [if_pos ((horder.mem_iff).mpr (List.mem_range.mpr hn))]

theorem countP_range_eq_one (p : Nat → Bool) (n k : Nat) (hk : k < n)
    (h : ∀ i, i < n → (p i = true ↔ i = k)) :
    (List.range n).countP p = 1 := by
  induction n with
  | zero => omega
  | succ m ih =>
    rw [List.range_succ, List.countP_append]
    rcases Nat.lt_or_ge k m with hkm | hkm
    · rw [ih hkm (fun i hi => h i (by omega))]
      have hpm : ¬ p m = true := by
        intro hc
        have := (h m (by omega)).mp hc
        omega
      simp [List.countP_cons, hpm]
    · have hkm' : k = m := by omega
      subst hkm'
      have hpk : p k = true := (h k (by omega)).mpr rfl
      have hzero : (List.range k).countP p = 0 := by
        rw [List.countP_eq_zero]
        intro i hi hc
        have hik : i < k := List.mem_range.mp hi
        have := (h i (by omega)).mp hc
        omega
      simp [hzero, List.countP_cons, hpk]

theorem runWithRetries_filtered (attempt : Nat → Except String String)
    (start budget : Nat)
    (h : ∀ a, a ≤ budget → ∃ e, attempt (start + a) = Except.error e) :
    ∃ e, runWithRetries attempt start budget = PageStatus.Filtered e := by
  induction budget generalizing start with
  | zero =>
    obtain ⟨e, he⟩ := h 0 (Nat.le_refl 0)
    rw [Nat.add_zero] at he
    exact ⟨e, by rw [runWithRetries, he]⟩
  | succ b ih =>
    obtain ⟨e0, he0⟩ := h 0 (Nat.zero_le _)
    rw [Nat.add_zero] at he0
    have hrest : ∀ a, a ≤ b → ∃ e, attempt (start + 1 + a) = Except.error e := by
      intro a ha
      have := h (a + 1) (by omega)
      simpa [Nat.add_assoc, Nat.add_comm 1 a] using this
    obtain ⟨e, he⟩ := ih (start + 1) hrest
    exact ⟨e, by rw [runWithRetries, he0, he]⟩

theorem runWithRetries_succeeded (attempt : Nat → Except String String)
    (start budget : Nat)
    (h : ∃ a t, a ≤ budget ∧ attempt (start + a) = Except.ok t) :
    ∃ t, runWithRetries attempt start budget = PageStatus.Succeeded t := by
  induction budget generalizing start with
  | zero =>
    obtain ⟨a, t, ha, ht⟩ := h
    have ha0 : a = 0 := by omega
    subst ha0
    rw [Nat.add_zero] at ht
    exact ⟨t, by rw [runWithRetries, ht]⟩
  | succ b ih =>
    obtain ⟨a, t, ha, ht⟩ := h
    rcases hcase : attempt start with e | t0
    · have hane : a ≠ 0 := by
        intro h0
        subst h0
        rw [Nat.add_zero] at ht
        rw [hcase] at ht
        exact Except.noConfusion ht
      have hrec : ∃ a' t', a' ≤ b ∧ attempt (start + 1 + a') = Except.ok t' := by
        refine ⟨a - 1, t, by omega, ?_⟩
        have : start + 1 + (a - 1) = start + a := by omega
        rw [this]
        exact ht
      obtain ⟨t', ht'⟩ := ih (start + 1) hrec
      exact ⟨t', by rw [runWithRetries, hcase, ht']⟩
    · exact ⟨t0, by rw [runWithRetries, hcase]⟩

/-- C1: dispatching `n` pages over an arbitrary completion order that is a
permutation of the page indices yields exactly `n` slots, each holding its
own page's outcome (results are written back by page index, not by
completion order); when page `k` fails every attempt within the retry
budget while every other page has a successful attempt within budget, slot
`k` is the unique `Filtered` entry, the other `n - 1` slots are
`Succeeded`, and no sibling slot is lost. -/
theorem claim_C1 (n : Nat) (backend : Nat → Nat → Except String String)
    (retries : Nat) (order : List Nat) (k : Nat)
    (horder : List.Perm order (List.range n)) (hk : k < n)
    (hfail : ∀ a, a ≤ retries → ∃ e, backend k a = Except.error e)
    (hok : ∀ i, i < n → i ≠ k → ∃ a t, a ≤ retries ∧ backend i a = Except.ok t) :
    (dispatch n (fun i => runWithRetries (backend i) 0 retries) order).length = n ∧
    (∀ i (hi : i < n)
      (hi' : i < (dispatch n (fun i => runWithRetries (backend i) 0 retries) order).length),
      (dispatch n (fun i => runWithRetries (backend i) 0 retries) order)[i] =
        some (runWithRetries (backend i) 0 retries)) ∧
    (∀ (hk' : k < (dispatch n (fun i => runWithRetries (backend i) 0 retries) order).length),
      isFilteredOpt (dispatch n (fun i => runWithRetries (backend i) 0 retries) order)[k]
        = true) ∧
    (∀ i (hi : i < n)
      (hi' : i < (dispatch n (fun i => runWithRetries (backend i) 0 retries) order).length),
      i ≠ k →
      isSucceededOpt (dispatch n (fun i => runWithRetries (backend i) 0 retries) order)[i]
        = true) ∧
    (dispatch n (fun i => runWithRetries (backend i) 0 retries) order).countP
      isFilteredOpt = 1 ∧
    (dispatch n (fun i => runWithRetries (backend i) 0 retries) order).countP
      isSucceededOpt = n - 1 := by
  have hmap := dispatch_eq_map n (fun i => runWithRetries (backend i) 0 retries) order horder
  have hlen : (dispatch n (fun i => runWithRetries (backend i) 0 retries) order).length = n := by
    rw [hmap, List.length_map, List.length_range]
  have hget : ∀ i (hi : i < n)
      (hi' : i < (dispatch n (fun i => runWithRetries (backend i) 0 retries) order).length),
      (dispatch n (fun i => runWithRetries (backend i) 0 retries) order)[i] =
        some (runWithRetries (backend i) 0 retries) := by
    intro i hi hi'
    have hm : i < ((List.range n).map
        (fun i => some (runWithRetries (backend i) 0 retries))).length := by
      rw [List.length_map, List.length_range]; exact hi
    rw [List.getElem_of_eq hmap hi', List.getElem_map, List.getElem_range]
  have hfiltk : isFilteredOpt (some (runWithRetries (backend k) 0 retries)) = true := by
    obtain ⟨e, he⟩ := runWithRetries_filtered (backend k) 0 retries
      (by intro a ha; simpa using hfail a ha)
    rw [he]
    rfl
  have hsucc : ∀ i, i < n → i ≠ k →
      isSucceededOpt (some (runWithRetries (backend i) 0 retries)) = true := by
    intro i hi hne
    obtain ⟨t, ht⟩ := runWithRetries_succeeded (backend i) 0 retries
      (by obtain ⟨a, t, ha, hat⟩ := hok i hi hne; exact ⟨a, t, ha, by simpa using hat⟩)
    rw [ht]
    rfl
  refine ⟨hlen, hget, ?_, ?_, ?_, ?_⟩
  · intro hk'
    rw [hget k hk hk']
    exact hfiltk
  · intro i hi hi' hne
    rw [hget i hi hi']
    exact hsucc i hi hne
  · rw [hmap, List.countP_map]
    refine countP_range_eq_one _ n k hk ?_
    intro i hi
    simp only [Function.comp_apply]
    constructor
    · intro hc
      by_contra hne
      have hs := hsucc i hi hne
      rcases hval : runWithRetries (backend i) 0 retries with t | e
      · rw [hval] at hc
        simp [isFilteredOpt] at hc
      · rw [hval] at hs
        simp [isSucceededOpt] at hs
    · intro hik
      subst hik
      simpa using hfiltk
  · rw [hmap, List.countP_map]
    have hcount : (List.range n).countP
        ((fun s => isFilteredOpt s) ∘ (fun i => some (runWithRetries (backend i) 0 retries)))
        = 1 := by
      refine countP_range_eq_one _ n k hk ?_
      intro i hi
      simp only [Function.comp_apply]
      constructor
      · intro hc
        by_contra hne
        have hs := hsucc i hi hne
        rcases hval : runWithRetries (backend i) 0 retries with t | e
        · rw [hval] at hc
          simp [isFilteredOpt] at hc
        · rw [hval] at hs
          simp [isSucceededOpt] at hs
      · intro hik
        subst hik
        simpa using hfiltk
    have hsum := List.length_eq_countP_add_countP
      ((fun s => isFilteredOpt s) ∘ (fun i => some (runWithRetries (backend i) 0 retries)))
      (List.range n)
    rw [List.length_range, hcount] at hsum
    have hcongr : (List.range n).countP
        ((fun s => isSucceededOpt s) ∘ (fun i => some (runWithRetries (backend i) 0 retries)))
        = (List.range n).countP (fun a => decide
          (¬ ((fun s => isFilteredOpt s) ∘
            (fun i => some (runWithRetries (backend i) 0 retries))) a = true)) := by
      refine List.countP_congr ?_
      intro i hi
      have hin : i < n := List.mem_range.mp hi
      simp only [Function.comp_apply, decide_eq_true_iff]
      rcases hval : runWithRetries (backend i) 0 retries with t | e
      · simp [isSucceededOpt, isFilteredOpt]
      · simp [isSucceededOpt, isFilteredOpt]
    rw [hcongr]
    omega

/-- C1 witness: three pages where page 1 times out on every attempt within
a 2-retry budget and the others succeed immediately, completing in the
order 2, 0, 1: the result has 3 slots, one Filtered and two Succeeded. -/
theorem claim_C1_witness :
    (dispatch 3
        (fun i => runWithRetries
          ((fun i a => if i = 1 then Except.error "timeout" else Except.ok "text") i) 0 2)
        [2, 0, 1]).countP isFilteredOpt = 1 ∧
      (dispatch 3
        (fun i => runWithRetries
          ((fun i a => if i = 1 then Except.error "timeout" else Except.ok "text") i) 0 2)
        [2, 0, 1]).countP isSucceededOpt = 3 - 1 :=
  ⟨(claim_C1 3 (fun i a => if i = 1 then Except.error "timeout" else Except.ok "text")
      2 [2, 0, 1] 1 (by decide) (by decide)
      (fun a _ => ⟨"timeout", rfl⟩)
      (fun i hi hne => ⟨0, "text", Nat.zero_le _, by simp [hne]⟩)).2.2.2.2.1,
    (claim_C1 3 (fun i a => if i = 1 then Except.error "timeout" else Except.ok "text")
      2 [2, 0, 1] 1 (by decide) (by decide)
      (fun a _ => ⟨"timeout", rfl⟩)
      (fun i hi hne => ⟨0, "text", Nat.zero_le _, by simp [hne]⟩)).2.2.2.2.2⟩

/-- C6: for a page with a nonzero recorded scale factor, mapping an
original-space bbox into the scaled space and straight back yields the
original bbox (exactly, in the rational idealisation of the spec's
"within rounding tolerance"). -/
theorem claim_C6 (scale : ℚ) (hs : scale ≠ 0) (bbox : List ℚ) :
    mapToOriginal scale (mapToScaled scale bbox) = bbox := by
  rw [mapToScaled, mapToOriginal, List.map_map]
  refine (List.map_congr_left ?_).trans (List.map_id bbox)
  intro c _
  simp only [Function.comp_apply, id_eq]
  exact mul_div_cancel_right₀ c hs

/-- C6 witness: a concrete bbox survives the round trip at scale `2/3`. -/
theorem claim_C6_witness :
    mapToOriginal (2 / 3) (mapToScaled (2 / 3) [10, 20, 110, 220]) =
      [10, 20, 110, 220] :=
  claim_C6 (2 / 3) (by norm_num) [10, 20, 110, 220]

/-- C5: every bbox that coordinate normalization passes downstream
satisfies `0 ≤ x1 < x2 ≤ width` and `0 ≤ y1 < y2 ≤ height` in the scaled
image's coordinate space — violating inputs are clipped or dropped, never
forwarded unmodified. -/
theorem claim_C5 (width height : Int) (hw : 0 ≤ width) (hh : 0 ≤ height)
    (bs : List BBox) (b : BBox) (hb : b ∈ normalizeBBoxes width height bs) :
    0 ≤ b.x1 ∧ b.x1 < b.x2 ∧ b.x2 ≤ width ∧
      0 ≤ b.y1 ∧ b.y1 < b.y2 ∧ b.y2 ≤ height := by
  rw [normalizeBBoxes] at hb
  obtain ⟨hmem, harea⟩ := List.mem_filter.mp hb
  obtain ⟨b0, _, hclip⟩ := List.mem_map.mp hmem
  have harea' : b.x1 < b.x2 ∧ b.y1 < b.y2 := by
    simpa using harea
  subst hclip
  simp only [clipBBox] at harea' ⊢
  omega

/-- C5 witness: a bbox protruding left of the image is clipped into range
and the resulting element satisfies the full invariant, for a 100 × 50
page. -/
theorem claim_C5_witness :
    0 ≤ (BBox.mk 0 10 30 50).x1 ∧
      (BBox.mk 0 10 30 50).x1 < (BBox.mk 0 10 30 50).x2 ∧
      (BBox.mk 0 10 30 50).x2 ≤ 100 ∧
      0 ≤ (BBox.mk 0 10 30 50).y1 ∧
      (BBox.mk 0 10 30 50).y1 < (BBox.mk 0 10 30 50).y2 ∧
      (BBox.mk 0 10 30 50).y2 ≤ 50 :=
  claim_C5 100 50 (by decide) (by decide)
    [BBox.mk (-10) 10 30 60, BBox.mk 5 5 5 40] (BBox.mk 0 10 30 50) (by decide)

theorem targetArea_min_le (area : Nat) (min_pixels max_pixels : Option Nat)
    (hmm : ∀ mn mx, min_pixels = some mn → max_pixels = some mx → mn ≤ mx) :
    ∀ mn, min_pixels = some mn → mn ≤ targetArea area min_pixels max_pixels := by
  intro mn hmn
  subst hmn
  rcases max_pixels with _ | mx
  · simp [targetArea]
  · have h := hmm mn mx rfl rfl
    simp only [targetArea]
    split
    · omega
    · split <;> omega

theorem targetArea_le_max (area : Nat) (min_pixels max_pixels : Option Nat)
    (hmm : ∀ mn mx, min_pixels = some mn → max_pixels = some mx → mn ≤ mx) :
    ∀ mx, max_pixels = some mx → targetArea area min_pixels max_pixels ≤ mx := by
  intro mx hmx
  subst hmx
  rcases min_pixels with _ | mn
  · simp [targetArea]
  · have h := hmm mn mx rfl rfl
    simp only [targetArea]
    split
    · omega
    · split <;> omega

/-- C3: for positive dimensions and compatible bounds, the planner returns
target dimensions whose area is exactly the clamped target area — hence at
least `min_pixels` and at most `max_pixels` whenever those are supplied —
and whose aspect ratio equals the original (`w' * height = width * h'`);
with no bounds the target equals the original dimensions. -/
theorem claim_C3 (width height : Int) (hw : 0 < width) (hh : 0 < height)
    (min_pixels max_pixels : Option Nat)
    (hmm : ∀ mn mx, min_pixels = some mn → max_pixels = some mx → mn ≤ mx) :
    ∃ w h : ℝ,
      plan_resolution width height min_pixels max_pixels = Except.ok (w, h) ∧
      w * h = (targetArea (width * height).toNat min_pixels max_pixels : ℝ) ∧
      (∀ mn, min_pixels = some mn → (mn : ℝ) ≤ w * h) ∧
      (∀ mx, max_pixels = some mx → w * h ≤ (mx : ℝ)) ∧
      w * (height : ℝ) = (width : ℝ) * h ∧
      (min_pixels = none → max_pixels = none →
        w = (width : ℝ) ∧ h = (height : ℝ)) := by
  have hwh : 0 < width * height := mul_pos hw hh
  set A : Nat := (width * height).toNat with hAdef
  set T : Nat := targetArea A min_pixels max_pixels with hTdef
  have hAr : ((A : Nat) : ℝ) = (width : ℝ) * (height : ℝ) := by
    have h1 : ((A : Nat) : ℤ) = width * height := Int.toNat_of_nonneg hwh.le
    exact_mod_cast congrArg (fun z : ℤ => (z : ℝ)) h1
  have hAne : ((A : Nat) : ℝ) ≠ 0 := by
    rw [hAr]
    have hpos : (0 : ℝ) < (width : ℝ) * (height : ℝ) := by exact_mod_cast hwh
    exact ne_of_gt hpos
  have hcond : ¬(width ≤ 0 ∨ height ≤ 0) := by omega
  set s : ℝ := Real.sqrt ((T : ℝ) / (A : ℝ)) with hsdef
  have hnn : (0 : ℝ) ≤ (T : ℝ) / (A : ℝ) :=
    div_nonneg (Nat.cast_nonneg _) (Nat.cast_nonneg _)
  have hs2 : s * s = (T : ℝ) / (A : ℝ) := Real.mul_self_sqrt hnn
  have harea : s * (width : ℝ) * (s * (height : ℝ)) = (T : ℝ) := by
    calc s * (width : ℝ) * (s * (height : ℝ))
        = s * s * ((width : ℝ) * (height : ℝ)) := by ring
      _ = (T : ℝ) / (A : ℝ) * ((width : ℝ) * (height : ℝ)) := by rw [hs2]
      _ = (T : ℝ) := by rw [← hAr, div_mul_cancel₀ _ hAne]
  refine ⟨s * (width : ℝ), s * (height : ℝ), ?_, harea, ?_, ?_, by ring, ?_⟩
  · simp only [plan_resolution]
    rw [if_neg hcond]
  · intro mn hmn
    rw [harea]
    have := targetArea_min_le A min_pixels max_pixels hmm mn hmn
    rw [← hTdef] at this
    exact_mod_cast this
  · intro mx hmx
    rw [harea]
    have := targetArea_le_max A min_pixels max_pixels hmm mx hmx
    rw [← hTdef] at this
    exact_mod_cast this
  · intro hminn hmaxn
    have hTA : T = A := by
      rw [hTdef, hminn, hmaxn]
      rfl
    have hs1 : s = 1 := by
      rw [hsdef, hTA, div_self hAne, Real.sqrt_one]
    rw [hs1, one_mul, one_mul]
    exact ⟨rfl, rfl⟩

/-- C3 witness: a 2 × 2 page under a max-only budget of 1 pixel is planned
to a 1-pixel-area target of the same aspect ratio; the concrete bound facts
are discharged at application. -/
theorem claim_C3_witness :
    ∃ w h : ℝ,
      plan_resolution 2 2 none (some 1) = Except.ok (w, h) ∧
      w * h = (targetArea ((2 * 2 : Int)).toNat none (some 1) : ℝ) ∧
      (∀ mn, (none : Option Nat) = some mn → (mn : ℝ) ≤ w * h) ∧
      (∀ mx, (some 1 : Option Nat) = some mx → w * h ≤ (mx : ℝ)) ∧
      w * ((2 : Int) : ℝ) = ((2 : Int) : ℝ) * h ∧
      ((none : Option Nat) = none → (some 1 : Option Nat) = none →
        w = ((2 : Int) : ℝ) ∧ h = ((2 : Int) : ℝ)) :=
  claim_C3 2 2 (by decide) (by decide) none (some 1)
    (fun mn mx h1 h2 => Option.noConfusion h1)

/-- C4: for every raw backend text, the parser yields either a Succeeded
result whose elements are exactly the decoded records that carry a category
from the fixed set and a 4-length bbox (invalid records dropped
individually, so one valid record among malformed ones survives), or a
Filtered result that retains the raw text verbatim — the response is never
silently dropped. -/
theorem claim_C4 (decode : String → Option (List RawRecord))
    (strip : String → String) (raw : String) :
    ((∃ elements, parse_response decode strip raw =
        ParsePageResult.Succeeded elements) ∨
      parse_response decode strip raw = ParsePageResult.Filtered raw) ∧
    (∀ records, decode raw = some records →
      parse_response decode strip raw =
        ParsePageResult.Succeeded (records.filter validRecord)) ∧
    (∀ records, decode raw = none → decode (strip raw) = some records →
      parse_response decode strip raw =
        ParsePageResult.Succeeded (records.filter validRecord)) ∧
    (decode raw = none → decode (strip raw) = none →
      parse_response decode strip raw = ParsePageResult.Filtered raw) ∧
    (∀ elements, parse_response decode strip raw =
        ParsePageResult.Succeeded elements →
      ∀ r ∈ elements,
        (∃ c, r.category = some c ∧ c ∈ categories) ∧
        (∃ b, r.bbox = some b ∧ b.length = 4)) ∧
    (∀ records, decode raw = some records →
      ∀ r ∈ records, validRecord r = true → r ∈ records.filter validRecord) := by
  have hvalid : ∀ r : RawRecord, validRecord r = true →
      (∃ c, r.category = some c ∧ c ∈ categories) ∧
      (∃ b, r.bbox = some b ∧ b.length = 4) := by
    intro r hr
    unfold validRecord at hr
    rcases hcat : r.category with _ | c <;> rcases hbox : r.bbox with _ | b <;>
      rw [hcat, hbox] at hr
    · exact absurd hr (by simp)
    · exact absurd hr (by simp)
    · exact absurd hr (by simp)
    · simp only [Bool.and_eq_true, decide_eq_true_iff] at hr
      exact ⟨⟨c, rfl, hr.1⟩, ⟨b, rfl, hr.2⟩⟩
  refine ⟨?_, ?_, ?_, ?_, ?_, ?_⟩
  · rcases hd : decode raw with _ | records
    · rcases hd2 : decode (strip raw) with _ | records
      · right
        rw [parse_response, hd, hd2]
      · left
        exact ⟨records.filter validRecord, by rw [parse_response, hd, hd2]⟩
    · left
      exact ⟨records.filter validRecord, by rw [parse_response, hd]⟩
  · intro records hd
    rw [parse_response, hd]
  · intro records hd hd2
    rw [parse_response, hd, hd2]
  · intro hd hd2
    rw [parse_response, hd, hd2]
  · intro elements helts r hr
    have hval : validRecord r = true := by
      rcases hd : decode raw with _ | records
      · rcases hd2 : decode (strip raw) with _ | records
        · rw [parse_response, hd, hd2] at helts
          exact absurd helts (by simp)
        · rw [parse_response, hd, hd2] at helts
          have helems : elements = records.filter validRecord := by
            injection helts.symm
          subst helems
          exact (List.mem_filter.mp hr).2
      · rw [parse_response, hd] at helts
        have helems : elements = records.filter validRecord := by
          injection helts.symm
        subst helems
        exact (List.mem_filter.mp hr).2
    exact hvalid r hval
  · intro records _ r hr hval
    exact List.mem_filter.mpr ⟨hr, hval⟩

/-- C4 witness: the response with one valid record among malformed ones
yields exactly that record, and undecodable text is Filtered with the raw
text retained verbatim. -/
theorem claim_C4_witness :
    parse_response demoDecode id "[good]" =
        ParsePageResult.Succeeded [goodRecord] ∧
      parse_response demoDecode id "garbage" =
        ParsePageResult.Filtered "garbage" :=
  ⟨((claim_C4 demoDecode id "[good]").2.1 [badRecord, goodRecord] rfl).trans
      (by decide),
    (claim_C4 demoDecode id "garbage").2.2.2.1 rfl rfl⟩

end DotsOCR

